import Mathlib

/-!
Verification of the slackdog bot (src/index.js): a Slack bot that tracks
pending work anchored to threads.  Tasks live in a Redis hash
("pendingTasks"), keyed by the thread anchor string; values are
JSON-serialized records with fields status, channel, text, comment.

The embedding below is a shallow one:
* the Redis hash is an association list `Store := List (String × String)`
  mapping field keys to raw (serialized) values; `hSet`, `hDel`, `hGet`
  model the field-level Redis operations used by the source;
* `JSON.stringify` / `JSON.parse` for the fixed four-field record shape
  produced by `addPendingTask` are modelled by `serializeTask` /
  `deserializeTask` (string escaping of quote, backslash, newline, CR and
  tab; the parser accepts exactly the shape the serializer emits and
  fails with `none` on anything else, modelling the exception thrown by
  `JSON.parse` on malformed input);
* the event handlers become pure functions from their inputs (message
  text, topic text, the store contents at the relevant moment, the cached
  workspace domain) to the lists of outbound effects (replies, DMs,
  scheduled reminders) they produce; exceptions caught by the handlers'
  try/catch wrappers become empty effect lists.
-/

namespace Slackdog

/-- A pending-task record as stored in Redis: the object literal built in
the @pending branch of the message handler (src/index.js lines 205-210). -/
structure TaskData where
  status : String
  channel : String
  text : String
  comment : String
deriving DecidableEq

/-- The "pendingTasks" Redis hash: an association list from field key
(thread anchor string) to raw serialized value. -/
abbrev Store := List (String × String)

/-- Redis HSET on one field: overwrite the field if present (keeping its
position), otherwise append a new field. -/
def hSet (store : Store) (k v : String) : Store :=
  if store.any (fun p => p.1 == k) then
    store.map (fun p => if p.1 == k then (k, v) else p)
  else
    store ++ [(k, v)]

/-- Redis HDEL on one field: remove every entry for the key (a no-op when
the field is absent). -/
def hDel (store : Store) (k : String) : Store :=
  store.filter (fun p => !(p.1 == k))

/-- Redis HGET on one field. -/
def hGet (store : Store) (k : String) : Option String :=
  (store.find? (fun p => p.1 == k)).map (fun p => p.2)

/-- JSON string escaping of one character, as `JSON.stringify` performs it
on the characters relevant here (quote, backslash, newline, CR, tab;
other characters pass through unchanged). -/
def escChar (c : Char) : List Char :=
  if c = '"' then ['\\', '"']
  else if c = '\\' then ['\\', '\\']
  else if c = '\n' then ['\\', 'n']
  else if c = '\r' then ['\\', 'r']
  else if c = '\t' then ['\\', 't']
  else [c]

/-- Escape a whole character list. -/
def escList : List Char → List Char
  | [] => []
  | c :: rest => escChar c ++ escList rest

/-- Inverse of `escChar` on the character following a backslash. -/
def unescChar (c : Char) : Option Char :=
  if c = '"' then some '"'
  else if c = '\\' then some '\\'
  else if c = 'n' then some '\n'
  else if c = 'r' then some '\r'
  else if c = 't' then some '\t'
  else none

/-- Parse an escaped JSON string body up to and including its closing
quote; return the decoded content and the remaining input. -/
def parseEsc : List Char → Option (List Char × List Char)
  | [] => none
  | c :: rest =>
    if c = '"' then some ([], rest)
    else if c = '\\' then
      match rest with
      | [] => none
      | e :: rest2 =>
        match unescChar e, parseEsc rest2 with
        | some d, some (s, r) => some (d :: s, r)
        | _, _ => none
    else
      match parseEsc rest with
      | some (s, r) => some (c :: s, r)
      | none => none

/-- Consume an expected literal prefix. -/
def dropLit : List Char → List Char → Option (List Char)
  | [], s => some s
  | _ :: _, [] => none
  | c :: lit, d :: s => if c = d then dropLit lit s else none

def lit1 : List Char := "\x7b\"status\":\"".data

def lit2 : List Char := ",\"channel\":\"".data

def lit3 : List Char := ",\"text\":\"".data

def lit4 : List Char := ",\"comment\":\"".data

/-- `JSON.stringify` of the four-field task record, at character level:
the object literal with fields status, channel, text, comment in the
order the source constructs them. -/
def serializeChars (t : TaskData) : List Char :=
  lit1 ++ (escList t.status.data ++ ('"' :: (lit2 ++ (escList t.channel.data ++
    ('"' :: (lit3 ++ (escList t.text.data ++ ('"' :: (lit4 ++
      (escList t.comment.data ++ ('"' :: ['\x7d'])))))))))))

/-- `JSON.stringify(taskData)` as called by `addPendingTask`. -/
def serializeTask (t : TaskData) : String :=
  String.mk (serializeChars t)

/-- Character-level `JSON.parse` for the record shape written by
`serializeTask`; `none` models the exception `JSON.parse` throws on
malformed input. -/
def parseTaskChars (l : List Char) : Option TaskData :=
  (dropLit lit1 l).bind fun r1 =>
  (parseEsc r1).bind fun sr =>
  (dropLit lit2 sr.2).bind fun r2 =>
  (parseEsc r2).bind fun cr =>
  (dropLit lit3 cr.2).bind fun r3 =>
  (parseEsc r3).bind fun tr =>
  (dropLit lit4 tr.2).bind fun r4 =>
  (parseEsc r4).bind fun mr =>
  if mr.2 = ['\x7d'] then
    some ⟨String.mk sr.1, String.mk cr.1, String.mk tr.1, String.mk mr.1⟩
  else none

/-- `JSON.parse` of a stored raw value. -/
def deserializeTask (s : String) : Option TaskData :=
  parseTaskChars s.data

/-- src/index.js lines 58-61: serialize and HSET under the thread id. -/
def addPendingTask (threadId : String) (taskData : TaskData) (store : Store) : Store :=
  hSet store threadId (serializeTask taskData)

/-- src/index.js lines 64-67: HDEL the thread id. -/
def removePendingTask (threadId : String) (store : Store) : Store :=
  hDel store threadId

/-- src/index.js lines 70-77: HGETALL and `JSON.parse` each value,
pairing it with its thread id.  A single malformed value makes
`JSON.parse` throw inside the `.map`, so the whole call fails: modelled
by returning `none`. -/
def getPendingTasks : Store → Option (List (String × TaskData))
  | [] => some []
  | p :: rest =>
    match deserializeTask p.2, getPendingTasks rest with
    | some t, some l => some ((p.1, t) :: l)
    | _, _ => none

/-- Every raw value in the store deserializes. -/
def wellFormed (store : Store) : Bool :=
  store.all (fun p => (deserializeTask p.2).isSome)

/-- A character the mention regex `<@([A-Z0-9]+)>` accepts inside an id. -/
def idChar (c : Char) : Bool :=
  (('A' ≤ c) && (c ≤ 'Z')) || (('0' ≤ c) && (c ≤ '9'))

mutual

/-- Left-to-right scan for mention tokens, modelling the global regex
`/<@([A-Z0-9]+)>/g` loop of `extractUserIdsFromTopic` (src/index.js
lines 80-88): a failed match attempt resumes at the next position that
could start a match. -/
def emScan : List Char → List String
  | [] => []
  | c :: rest => if c = '<' then emLt rest else emScan rest
  termination_by l => (l.length, 0)

/-- Just consumed an opening angle bracket: an at-sign continues the
candidate mention, anything else resumes the plain scan at the current
character. -/
def emLt : List Char → List String
  | '@' :: rest2 => emId [] rest2
  | l => emScan l
  termination_by l => (l.length, 2)

/-- Inside a candidate mention after consuming a prefix of the form
angle-bracket at-sign; `acc` holds the id characters read so far,
reversed. -/
def emId (acc : List Char) : List Char → List String
  | [] => []
  | c :: rest =>
    if idChar c then emId (c :: acc) rest
    else if c = '>' && !acc.isEmpty then String.mk acc.reverse :: emScan rest
    else if c = '<' then emLt rest
    else emScan rest
  termination_by l => (l.length, 1)

end

/-- src/index.js lines 80-88. -/
def extractUserIdsFromTopic (topic : String) : List String :=
  emScan topic.data

/-- JavaScript `s.replace(".", "")` with a string pattern replaces only
the first occurrence. -/
def removeFirstDotChars : List Char → List Char
  | [] => []
  | c :: rest => if c = '.' then rest else c :: removeFirstDotChars rest

def removeFirstDot (s : String) : String :=
  String.mk (removeFirstDotChars s.data)

/-- JavaScript `a || b` for an optional string: the fallback is used when
the value is undefined or the empty string. -/
def jsOr (a : Option String) (b : String) : String :=
  match a with
  | some s => if s = "" then b else s
  | none => b

/-- An in-channel or in-thread reply posted via `say` /
`chat.postMessage`: its text and the `thread_ts` it is threaded under
(none for an unthreaded post). -/
structure Reply where
  text : String
  thread : Option String
deriving DecidableEq

/-- Observable outcome of one DM attempt: either the message was posted
to the opened conversation, or the failure was caught and logged with the
recipient id. -/
inductive DMEvent where
  | sent (userId : String) (text : String)
  | errorLogged (userId : String)
deriving DecidableEq

/-- The fallible part of `sendDM` (src/index.js lines 42-55):
`conversations.open` followed by `chat.postMessage`, either of which may
fail.  The failure oracle `fails` abstracts the transport. -/
def openAndPost (fails : String → Bool) (userId text : String) : Except String (List DMEvent) :=
  if fails userId then Except.error userId else Except.ok [DMEvent.sent userId text]

/-- `sendDM` wraps the transport calls in try/catch: a failure becomes a
log entry naming the recipient and never propagates to the caller. -/
def sendDM (fails : String → Bool) (userId text : String) : List DMEvent :=
  match openAndPost fails userId text with
  | Except.ok evs => evs
  | Except.error u => [DMEvent.errorLogged u]

/-- The topic-change DM loop (src/index.js lines 174-177): one `sendDM`
per mentioned user, in order. -/
def broadcastDMs (fails : String → Bool) : List String → String → List DMEvent
  | [], _ => []
  | u :: rest, text => sendDM fails u text ++ broadcastDMs fails rest text

def topicThreadLink (domain channel tid : String) : String :=
  "<https://" ++ domain ++ ".slack.com/archives/" ++ channel ++ "/p" ++
    removeFirstDot tid ++ "|Thread>"

/-- The numbered pending-task list built in the topic-change handler
(src/index.js lines 153-159). -/
def topicDigest (domain : String) (tasks : List (String × TaskData)) : String :=
  String.intercalate "\n" (tasks.mapIdx (fun i t =>
    toString (i + 1) ++ ". " ++ t.2.text ++ "... " ++ topicThreadLink domain t.2.channel t.1))

def pendingMessage (domain : String) (tasks : List (String × TaskData)) : String :=
  "Here are the pending tasks:\n" ++ topicDigest domain tasks

/-- The fixed instructional preamble of the topic-change DM (src/index.js
lines 163-170), up to the interpolated pending list. -/
def instructionsPreamble : String :=
  "\n~~~~~~~~~~~~~~~~~~~~~~~~~~~~~~~~~~~~~~~~~~~~~~~~~~~~~~~~~~~~~~~~~~~~~\nHello! Please review the pending tasks for today. To work on a task:\n- Browse the relevant thread.\n- Avoid long chit-chat.\n- Continue the discussion under the thread (don\x27t reply to the bot directly).\n- Mark the task as completed by commenting \"@completed\" under the respective thread.\n\n"

def instructionsText (domain : String) (tasks : List (String × TaskData)) : String :=
  instructionsPreamble ++ pendingMessage domain tasks ++ "\n      "

/-- The topic-change branch of the message-event handler (src/index.js
lines 134-182), as a function from the store contents and topic text to
the DM attempts it makes.  A `getPendingTasks` failure is caught by the
surrounding try/catch, producing no DMs. -/
def handleTopicChange (fails : String → Bool) (store : Store) (domain topic : String) :
    List DMEvent :=
  let userIds := extractUserIdsFromTopic topic
  match getPendingTasks store with
  | none => []
  | some pendingTasks =>
    if pendingTasks.length = 0 || userIds.length = 0 then []
    else broadcastDMs fails userIds (instructionsText domain pendingTasks)

/-- The thread link labelled "Go to thread", as built both in the
@list_pending branch (src/index.js line 278) and in the reminder message
(line 105). -/
def listThreadLink (domain channel tid : String) : String :=
  "<https://" ++ domain ++ ".slack.com/archives/" ++ channel ++ "/p" ++
    removeFirstDot tid ++ "|Go to thread>"

/-- The accumulated `listMessage` of the @list_pending branch
(src/index.js lines 276-279). -/
def listPendingText (domain : String) (tasks : List (String × TaskData)) : String :=
  tasks.foldl
    (fun acc t => acc ++ "• " ++ listThreadLink domain t.2.channel t.1 ++ " - " ++ t.2.text ++ "\n")
    "*Pending tasks:*\n"

/-- The @list_pending branch (src/index.js lines 268-285): the replies it
posts, given the store contents; `anchor` is the computed
thread_ts-or-ts.  A `getPendingTasks` failure is caught by the handler's
try/catch, producing no reply at all. -/
def listPendingReply (domain : String) (store : Store) (anchor : String) : List Reply :=
  match getPendingTasks store with
  | none => []
  | some tasks =>
    if tasks.length = 0 then [⟨"No pending tasks found.", some anchor⟩]
    else [⟨listPendingText domain tasks, some anchor⟩]

/-- The reminder notification text (src/index.js lines 102-106); its
link line has the same shape as the @list_pending one, shared here as
`listThreadLink`. -/
def reminderMessage (domain : String) (t : TaskData) (threadId : String) : String :=
  "\n🔔 Reminder: The task in this thread is still pending!\n- Task: " ++ t.text ++
    "\n- " ++ listThreadLink domain t.channel threadId ++ "\n        "

/-- The body of the timer armed by `setReminder` (src/index.js lines
91-119), as a function of the store contents at fire time: re-check the
task, post one message to the recipient if it is still there, otherwise
do nothing.  The result is the list of posted (channel, text) messages;
a parse failure is caught by the callback's try/catch. -/
def reminderFire (store : Store) (domain userId threadId : String) : List (String × String) :=
  match hGet store threadId with
  | none => []
  | some raw =>
    match deserializeTask raw with
    | none => []
    | some taskData => [(userId, reminderMessage domain taskData threadId)]

/-- The @completed branch (src/index.js lines 250-265): remove the task
and reply in-thread. -/
def handleCompletedMessage (store : Store) (thread_ts : Option String) (ts : String) :
    Store × List Reply :=
  let threadId := jsOr thread_ts ts
  if threadId = "" then (store, [⟨"Please use @completed within a thread.", none⟩])
  else (removePendingTask threadId store, [⟨"Thread marked as completed!", some threadId⟩])

/-- JavaScript `parentText.substring(0, 50)`. -/
def truncate50 (s : String) : String :=
  String.mk (s.data.take 50)

/-- The @pending branch (src/index.js lines 192-218): build the task
record from the fetched parent message preview and store it, then
confirm in-thread.  `parentMsgText` is the text of the first message
returned by `conversations.replies` (none when absent). -/
def handlePendingMessage (store : Store) (channelId : String) (thread_ts : Option String)
    (ts msgText : String) (parentMsgText : Option String) : Store × List Reply :=
  let threadId := jsOr thread_ts ts
  let parentText := jsOr parentMsgText "No parent message found."
  let truncatedText := truncate50 parentText
  (addPendingTask threadId ⟨"pending", channelId, truncatedText, msgText⟩ store,
    [⟨"Thread marked as pending! If you like to set a reminder for this task, Reply with \"remind me in X minutes\".", some threadId⟩])

def rmiLit : List Char := "remind me in ".data

/-- Case-insensitive literal match: `lit` is given lowercased, input
characters are lowercased before comparison. -/
def dropLitCI : List Char → List Char → Option (List Char)
  | [], s => some s
  | _ :: _, [] => none
  | c :: lit, d :: s => if d.toLower = c then dropLitCI lit s else none

def takeDigits : List Char → List Char × List Char
  | [] => ([], [])
  | c :: rest =>
    if c.isDigit then
      let p := takeDigits rest
      (c :: p.1, p.2)
    else ([], c :: rest)

/-- `parseInt(digits, 10)`. -/
def digitsToNat (ds : List Char) : Nat :=
  ds.foldl (fun n c => n * 10 + (c.toNat - 48)) 0

/-- A character matched by the regex class `\s`. -/
def isJsSpace (c : Char) : Bool :=
  c = ' ' || c = '\t' || c = '\n' || c = '\x0d' || c = '\x0b' || c = '\x0c'

def dropSpaces : List Char → List Char
  | [] => []
  | c :: rest => if isJsSpace c then dropSpaces rest else c :: rest

/-- The alternation `(minute|hour|day)` of the reminder regex, combined
with the handler's subsequent `match[2].toLowerCase()`: the three unit
words are pairwise distinguishable by their first letter, so ordered
alternation is plain first-match. -/
def matchUnit (l : List Char) : Option String :=
  if (dropLitCI "minute".data l).isSome then some "minute"
  else if (dropLitCI "hour".data l).isSome then some "hour"
  else if (dropLitCI "day".data l).isSome then some "day"
  else none

/-- One attempt of the regex
`/remind me in (\d+)\s*(minute|hour|day)s?/i` at the current position,
returning the parsed amount and lowercased unit. -/
def matchReminderAt (l : List Char) : Option (Nat × String) :=
  (dropLitCI rmiLit l).bind fun r1 =>
  match takeDigits r1 with
  | ([], _) => none
  | (ds, r2) => (matchUnit (dropSpaces r2)).map fun u => (digitsToNat ds, u)

/-- Unanchored regex search: try each position left to right. -/
def findReminder : List Char → Option (Nat × String)
  | [] => none
  | c :: rest =>
    match matchReminderAt (c :: rest) with
    | some r => some r
    | none => findReminder rest

/-- `text.toLowerCase().startsWith(lit)` for a lowercase literal. -/
def startsWithLC (text lit : String) : Bool :=
  lit.data.isPrefixOf (text.data.map Char.toLower)

/-- JavaScript `s.startsWith(pre)`. -/
def jsStartsWith (s pre : String) : Bool :=
  pre.data.isPrefixOf s.data

/-- The unit-to-milliseconds chain of the reminder branch (src/index.js
lines 227-230); `none` models `delayInMs` left undefined. -/
def delayFor (amount : Nat) (unit : String) : Option Nat :=
  if jsStartsWith unit "minute" then some (amount * 60 * 1000)
  else if jsStartsWith unit "hour" then some (amount * 60 * 60 * 1000)
  else if jsStartsWith unit "day" then some (amount * 24 * 60 * 60 * 1000)
  else none

/-- A reminder armed via `setReminder`. -/
structure SchedReminder where
  userId : String
  threadId : String
  delayInMs : Nat
deriving DecidableEq

/-- The reminder branch of the message handler (src/index.js lines
221-247): the replies posted and reminders scheduled for one inbound
message.  Note the `if (delayInMs)` guard: a zero (or undefined) delay
is falsy, so nothing happens. -/
def handleReminderMessage (text : String) (thread_ts : Option String) (ts user : String) :
    List Reply × List SchedReminder :=
  if startsWithLC text "remind me in" then
    match findReminder text.data with
    | some au =>
      let delayInMs := delayFor au.1 au.2
      let threadId := jsOr thread_ts ts
      if threadId = "" then ([⟨"Please set reminder within a thread.", none⟩], [])
      else
        match delayInMs with
        | some d =>
          if d ≠ 0 then
            ([⟨"Got it! I\x27ll remind you about this task in " ++ toString au.1 ++ " " ++
                au.2 ++ "(s).", thread_ts⟩],
              [⟨user, threadId, d⟩])
          else ([], [])
        | none => ([], [])
    | none => ([], [])
  else ([], [])

/-- A sequence of MarkPending commands (thread id and record to write)
applied in order. -/
def markPendingAll (init : Store) (cmds : List (String × TaskData)) : Store :=
  cmds.foldl (fun s c => addPendingTask c.1 c.2 s) init

/-- The last record written for `id` by a command sequence, if any. -/
def lastWrite (cmds : List (String × TaskData)) (id : String) : Option TaskData :=
  (cmds.reverse.find? (fun c => c.1 == id)).map (fun c => c.2)

def keysOf (store : Store) : List String :=
  store.map (fun p => p.1)

/-- Substring test, used to state formatting claims. -/
def containsSub (needle : List Char) : List Char → Bool
  | [] => needle.isEmpty
  | c :: rest => needle.isPrefixOf (c :: rest) || containsSub needle rest

/-- The spec's unit conversion table (spec section 4.4), for comparison
with the delay the code computes. -/
def unitMs (unit : String) : Nat :=
  if unit = "minute" then 60000
  else if unit = "hour" then 3600000
  else if unit = "day" then 86400000
  else 0

/-- The two-task store of the spec's list-formatting test property. -/
def c8Store : Store :=
  addPendingTask "2.2" (⟨"pending", "C1", "Write docs", "@pending"⟩ : TaskData)
    (addPendingTask "1.1" (⟨"pending", "C1", "Fix bug", "@pending"⟩ : TaskData) [])

/-- The reply text the @list_pending branch produces for `c8Store` with
workspace domain "myteam". -/
def c8ReplyText : String :=
  "*Pending tasks:*\n• <https://myteam.slack.com/archives/C1/p11|Go to thread> - Fix bug\n• <https://myteam.slack.com/archives/C1/p22|Go to thread> - Write docs\n"

theorem dropLit_append (lit rest : List Char) : dropLit lit (lit ++ rest) = some rest := by
  induction lit with
  | nil => rfl
  | cons c lit ih => simp [dropLit, ih]

theorem parseEsc_quote (l : List Char) : parseEsc ('"' :: l) = some ([], l) := by
  rw [parseEsc.eq_def]
  simp

theorem parseEsc_cons_normal (c : Char) (l : List Char) (h1 : c ≠ '"') (h2 : c ≠ '\\') :
    parseEsc (c :: l) = (parseEsc l).map (fun sr => (c :: sr.1, sr.2)) := by
  rw [parseEsc.eq_def]
  simp only [if_neg h1, if_neg h2]
  cases parseEsc l with
  | none => rfl
  | some sr => rfl

theorem parseEsc_cons_esc (e d : Char) (l : List Char) (hd : unescChar e = some d) :
    parseEsc ('\\' :: e :: l) = (parseEsc l).map (fun sr => (d :: sr.1, sr.2)) := by
  have hq : ('\\' : Char) ≠ '"' := by decide
  rw [parseEsc.eq_def]
  simp only [if_neg hq, if_pos rfl, hd]
  cases parseEsc l with
  | none => rfl
  | some sr => rfl

theorem parseEsc_escList (s rest : List Char) :
    parseEsc (escList s ++ ('"' :: rest)) = some (s, rest) := by
  induction s with
  | nil => simp [escList, parseEsc_quote]
  | cons c s ih =>
    by_cases h1 : c = '"'
    · subst h1
      have : escList ('"' :: s) = '\\' :: '"' :: escList s := by simp [escList, escChar]
      rw [this, List.cons_append, List.cons_append,
        parseEsc_cons_esc '"' '"' _ (by simp [unescChar]), ih]
      rfl
    · by_cases h2 : c = '\\'
      · subst h2
        have : escList ('\\' :: s) = '\\' :: '\\' :: escList s := by
          simp [escList, escChar]
        rw [this, List.cons_append, List.cons_append,
          parseEsc_cons_esc '\\' '\\' _ (by simp [unescChar]), ih]
        rfl
      · by_cases h3 : c = '\n'
        · subst h3
          have : escList ('\n' :: s) = '\\' :: 'n' :: escList s := by
            simp [escList, escChar]
          rw [this, List.cons_append, List.cons_append,
            parseEsc_cons_esc 'n' '\n' _ (by simp [unescChar]), ih]
          rfl
        · by_cases h4 : c = '\r'
          · subst h4
            have : escList ('\r' :: s) = '\\' :: 'r' :: escList s := by
              simp [escList, escChar]
            rw [this, List.cons_append, List.cons_append,
              parseEsc_cons_esc 'r' '\r' _ (by simp [unescChar]), ih]
            rfl
          · by_cases h5 : c = '\t'
            · subst h5
              have : escList ('\t' :: s) = '\\' :: 't' :: escList s := by
                simp [escList, escChar]
              rw [this, List.cons_append, List.cons_append,
                parseEsc_cons_esc 't' '\t' _ (by simp [unescChar]), ih]
              rfl
            · have : escList (c :: s) = c :: escList s := by
                simp [escList, escChar, h1, h2, h3, h4, h5]
              rw [this, List.cons_append, parseEsc_cons_normal c _ h1 h2, ih]
              rfl

theorem deserialize_serialize (t : TaskData) : deserializeTask (serializeTask t) = some t := by
  simp [deserializeTask, serializeTask, serializeChars, parseTaskChars,
    dropLit_append, parseEsc_escList]

theorem find?_hSet_self (s : Store) (k v : String) :
    (hSet s k v).find? (fun p => p.1 == k) = some (k, v) := by
  unfold hSet
  by_cases h : s.any (fun p => p.1 == k) = true
  · rw [if_pos h]
    induction s with
    | nil => simp at h
    | cons p rest ih =>
      by_cases hp : p.1 = k
      · simp [hp]
      · have hp2 : (p.1 == k) = false := by simp [hp]
        simp only [List.any_cons, hp2, Bool.false_or] at h
        rw [List.map_cons, if_neg (by simp [hp])]
        rw [List.find?_cons_of_neg _ (by simp [hp]), ih h]
  · rw [if_neg h]
    rw [List.find?_append]
    have hnone : s.find? (fun p => p.1 == k) = none := by
      rw [List.find?_eq_none]
      intro x hx hxk
      exact h (List.any_eq_true.mpr ⟨x, hx, hxk⟩)
    simp [hnone]

theorem hGet_hSet_self (s : Store) (k v : String) : hGet (hSet s k v) k = some v := by
  simp [hGet, find?_hSet_self]

theorem find?_map_overwrite_ne (s : Store) (k v k2 : String) (hne : k ≠ k2) :
    (s.map (fun p => if p.1 == k then (k, v) else p)).find? (fun p => p.1 == k2) =
      s.find? (fun p => p.1 == k2) := by
  induction s with
  | nil => rfl
  | cons p rest ih =>
    rw [List.map_cons]
    by_cases hp : p.1 = k
    · rw [if_pos (show (p.1 == k) = true by simp [hp])]
      rw [List.find?_cons_of_neg _ (by simp [hne]),
        List.find?_cons_of_neg _ (by simp [hp, hne]), ih]
    · rw [if_neg (show ¬ (p.1 == k) = true by simp [hp])]
      by_cases hpk2 : p.1 = k2
      · rw [List.find?_cons_of_pos _ (by simp [hpk2]),
          List.find?_cons_of_pos _ (by simp [hpk2])]
      · rw [List.find?_cons_of_neg _ (by simp [hpk2]),
          List.find?_cons_of_neg _ (by simp [hpk2]), ih]

theorem hGet_hSet_ne (s : Store) (k v k2 : String) (hne : k ≠ k2) :
    hGet (hSet s k v) k2 = hGet s k2 := by
  unfold hGet hSet
  by_cases h : s.any (fun p => p.1 == k) = true
  · rw [if_pos h, find?_map_overwrite_ne s k v k2 hne]
  · rw [if_neg h]
    rw [List.find?_append]
    have hsingle : List.find? (fun p => p.1 == k2) [(k, v)] = none := by simp [hne]
    simp [hsingle]

theorem find?_hDel_self (s : Store) (k : String) :
    (hDel s k).find? (fun p => p.1 == k) = none := by
  rw [List.find?_eq_none]
  intro x hx
  rcases List.mem_filter.mp hx with ⟨_, hxk⟩
  simp at hxk
  simp [hxk]

theorem hGet_hDel_self (s : Store) (k : String) : hGet (hDel s k) k = none := by
  simp [hGet, find?_hDel_self]

theorem hDel_of_absent (s : Store) (k : String) (h : hGet s k = none) : hDel s k = s := by
  unfold hDel
  rw [List.filter_eq_self]
  intro p hp
  unfold hGet at h
  rw [Option.map_eq_none'] at h
  rw [List.find?_eq_none] at h
  have := h p hp
  simpa using this

theorem keysOf_hSet_present (s : Store) (k v : String) (h : s.any (fun p => p.1 == k) = true) :
    keysOf (hSet s k v) = keysOf s := by
  unfold hSet keysOf
  rw [if_pos h]
  simp only [List.map_map]
  apply List.map_congr_left
  intro p _
  by_cases hp : p.1 = k
  · simp [hp]
  · simp [hp]

theorem keysOf_hSet_absent (s : Store) (k v : String) (h : ¬ s.any (fun p => p.1 == k) = true) :
    keysOf (hSet s k v) = keysOf s ++ [k] := by
  unfold hSet keysOf
  rw [if_neg h]
  simp

theorem nodup_keysOf_hSet (s : Store) (k v : String) (h : (keysOf s).Nodup) :
    (keysOf (hSet s k v)).Nodup := by
  by_cases hany : s.any (fun p => p.1 == k) = true
  · rw [keysOf_hSet_present s k v hany]; exact h
  · rw [keysOf_hSet_absent s k v hany]
    rw [List.nodup_append]
    refine ⟨h, List.nodup_singleton k, ?_⟩
    intro a ha hb
    rcases List.mem_singleton.mp hb with rfl
    rcases List.mem_map.mp ha with ⟨p, hp, hpk⟩
    exact hany (List.any_eq_true.mpr ⟨p, hp, by simp [hpk]⟩)

theorem markPendingAll_nil (init : Store) : markPendingAll init [] = init := rfl

theorem markPendingAll_cons (init : Store) (c : String × TaskData) (rest : List (String × TaskData)) :
    markPendingAll init (c :: rest) = markPendingAll (addPendingTask c.1 c.2 init) rest := rfl

theorem nodup_keys_markPendingAll (cmds : List (String × TaskData)) :
    ∀ init : Store, (keysOf init).Nodup → (keysOf (markPendingAll init cmds)).Nodup := by
  induction cmds with
  | nil => intro init h; exact h
  | cons c rest ih =>
    intro init h
    rw [markPendingAll_cons]
    exact ih _ (nodup_keysOf_hSet init c.1 (serializeTask c.2) h)

theorem lastWrite_nil (id : String) : lastWrite [] id = none := rfl

theorem lastWrite_cons (c : String × TaskData) (rest : List (String × TaskData)) (id : String) :
    lastWrite (c :: rest) id =
      (lastWrite rest id).or (if c.1 == id then some c.2 else none) := by
  unfold lastWrite
  rw [List.reverse_cons, List.find?_append]
  cases hr : List.find? (fun x => x.1 == id) rest.reverse with
  | none =>
    cases hc : (c.1 == id) with
    | true => simp [List.find?, hc]
    | false => simp [List.find?, hc]
  | some x =>
    simp

theorem lastWrite_eq_none_iff (cmds : List (String × TaskData)) (id : String) :
    lastWrite cmds id = none ↔ ∀ c ∈ cmds, c.1 ≠ id := by
  unfold lastWrite
  rw [Option.map_eq_none', List.find?_eq_none]
  constructor
  · intro h c hc hck
    exact h c (List.mem_reverse.mpr hc) (by simp [hck])
  · intro h c hc hck
    exact h c (List.mem_reverse.mp hc) (by simpa using hck)

theorem hGet_markPendingAll_noWrite (cmds : List (String × TaskData)) :
    ∀ (init : Store) (id : String), (∀ c ∈ cmds, c.1 ≠ id) →
      hGet (markPendingAll init cmds) id = hGet init id := by
  induction cmds with
  | nil => intro init id _; rfl
  | cons c rest ih =>
    intro init id h
    rw [markPendingAll_cons, ih _ _ (fun x hx => h x (List.mem_cons_of_mem c hx))]
    exact hGet_hSet_ne init c.1 (serializeTask c.2) id (h c (List.mem_cons_self c rest))

theorem hGet_markPendingAll_last (cmds : List (String × TaskData)) :
    ∀ (init : Store) (id : String) (T : TaskData), lastWrite cmds id = some T →
      hGet (markPendingAll init cmds) id = some (serializeTask T) := by
  induction cmds with
  | nil => intro init id T h; rw [lastWrite_nil] at h; exact absurd h (by simp)
  | cons c rest ih =>
    intro init id T h
    rw [markPendingAll_cons]
    rw [lastWrite_cons] at h
    cases hr : lastWrite rest id with
    | some T2 =>
      rw [hr] at h
      simp only [Option.or_some] at h
      cases h
      exact ih _ _ _ hr
    | none =>
      rw [hr] at h
      simp only [Option.none_or] at h
      have hc : (c.1 == id) = true := by
        by_contra hcn
        simp only [Bool.not_eq_true] at hcn
        rw [hcn] at h
        simp at h
      rw [hc] at h
      simp only [if_true, Option.some_inj] at h
      subst h
      have hck : c.1 = id := by simpa using hc
      rw [hGet_markPendingAll_noWrite rest _ id ((lastWrite_eq_none_iff rest id).mp hr)]
      rw [← hck]
      exact hGet_hSet_self init c.1 (serializeTask c.2)

theorem sendDM_eq (fails : String → Bool) (u text : String) :
    sendDM fails u text =
      if fails u then [DMEvent.errorLogged u] else [DMEvent.sent u text] := by
  unfold sendDM openAndPost
  by_cases hu : fails u = true
  · rw [if_pos hu, if_pos hu]
  · rw [if_neg hu, if_neg hu]

theorem broadcastDMs_eq_map (fails : String → Bool) (userIds : List String) (text : String) :
    broadcastDMs fails userIds text =
      userIds.map (fun u => if fails u then DMEvent.errorLogged u else DMEvent.sent u text) := by
  induction userIds with
  | nil => rfl
  | cons u rest ih =>
    show sendDM fails u text ++ broadcastDMs fails rest text = _
    rw [sendDM_eq, ih, List.map_cons]
    by_cases hu : fails u = true
    · rw [if_pos hu, if_pos hu]
      rfl
    · rw [if_neg hu, if_neg hu]
      rfl

theorem getPendingTasks_eq_none (store : Store) (p : String × String) (hp : p ∈ store)
    (hbad : deserializeTask p.2 = none) : getPendingTasks store = none := by
  induction store with
  | nil => simp at hp
  | cons q rest ih =>
    rcases List.mem_cons.mp hp with rfl | hmem
    · simp [getPendingTasks, hbad]
    · have hstep : getPendingTasks (q :: rest) =
          match deserializeTask q.2, getPendingTasks rest with
          | some t, some l => some ((q.1, t) :: l)
          | _, _ => none := rfl
      rw [hstep, ih hmem]
      cases deserializeTask q.2 <;> rfl

theorem getPendingTasks_of_wellFormed (store : Store) (h : wellFormed store = true) :
    ∃ l, getPendingTasks store = some l ∧
      List.Forall₂ (fun (p : String × String) (q : String × TaskData) =>
        q.1 = p.1 ∧ deserializeTask p.2 = some q.2) store l := by
  induction store with
  | nil => exact ⟨[], rfl, List.Forall₂.nil⟩
  | cons p rest ih =>
    unfold wellFormed at h
    rw [List.all_cons, Bool.and_eq_true] at h
    obtain ⟨h1, h2⟩ := h
    obtain ⟨t, ht⟩ := Option.isSome_iff_exists.mp h1
    obtain ⟨l, hl, hf⟩ := ih h2
    refine ⟨(p.1, t) :: l, ?_, List.Forall₂.cons ⟨rfl, ht⟩ hf⟩
    have hstep : getPendingTasks (p :: rest) =
        match deserializeTask p.2, getPendingTasks rest with
        | some t, some l => some ((p.1, t) :: l)
        | _, _ => none := rfl
    rw [hstep, ht, hl]

theorem find?_forall₂_none (s : Store) (l : List (String × TaskData))
    (hf : List.Forall₂ (fun (p : String × String) (q : String × TaskData) =>
      q.1 = p.1 ∧ deserializeTask p.2 = some q.2) s l)
    (id : String) (h : s.find? (fun p => p.1 == id) = none) :
    l.find? (fun q => q.1 == id) = none := by
  induction hf with
  | nil => rfl
  | cons hpq htail ih =>
    rename_i p q s2 l2
    rw [List.find?_eq_none] at h
    have hpkey : ¬ (p.1 == id) = true := h p (List.mem_cons_self p s2)
    rw [List.find?_cons_of_neg _ (by rw [hpq.1]; exact hpkey)]
    exact ih (List.find?_eq_none.mpr (fun x hx => h x (List.mem_cons_of_mem p hx)))

theorem find?_forall₂_some (s : Store) (l : List (String × TaskData))
    (hf : List.Forall₂ (fun (p : String × String) (q : String × TaskData) =>
      q.1 = p.1 ∧ deserializeTask p.2 = some q.2) s l)
    (id v : String) (t : TaskData)
    (h : s.find? (fun p => p.1 == id) = some (id, v)) (hv : deserializeTask v = some t) :
    l.find? (fun q => q.1 == id) = some (id, t) := by
  induction hf with
  | nil => simp at h
  | cons hpq htail ih =>
    rename_i p q s2 l2
    by_cases hk : p.1 = id
    · rw [List.find?_cons_of_pos _ (by simp [hk])] at h
      have hp : p = (id, v) := by injection h
      rw [List.find?_cons_of_pos _ (by simp [hpq.1, hk])]
      have hq2 : some q.2 = some t := by
        have h2 := hpq.2
        rw [hp] at h2
        simp only at h2
        rw [hv] at h2
        exact h2.symm
      have hq1 : q.1 = id := by rw [hpq.1, hk]
      have : q = (id, t) := by
        cases q with
        | mk q1 q2 =>
          simp only at hq1
          cases hq2
          rw [hq1]
      rw [this]
    · rw [List.find?_cons_of_neg _ (by simp [hk])] at h
      rw [List.find?_cons_of_neg _ (by simp [hpq.1, hk])]
      exact ih h

theorem wellFormed_hDel (s : Store) (k : String) (h : wellFormed s = true) :
    wellFormed (hDel s k) = true := by
  unfold wellFormed at h ⊢
  rw [List.all_eq_true] at h ⊢
  intro p hp
  exact h p (List.mem_filter.mp hp).1

theorem wellFormed_hSet_serialized (s : Store) (k : String) (T : TaskData)
    (h : wellFormed s = true) : wellFormed (hSet s k (serializeTask T)) = true := by
  unfold wellFormed at h ⊢
  rw [List.all_eq_true] at h ⊢
  intro p hp
  unfold hSet at hp
  by_cases hany : s.any (fun q => q.1 == k) = true
  · rw [if_pos hany] at hp
    rcases List.mem_map.mp hp with ⟨q, hq, hqp⟩
    by_cases hqk : q.1 = k
    · rw [if_pos (by simp [hqk])] at hqp
      rw [← hqp]
      simp [deserialize_serialize]
    · rw [if_neg (by simp [hqk])] at hqp
      rw [← hqp]
      exact h q hq
  · rw [if_neg hany] at hp
    rcases List.mem_append.mp hp with hmem | hmem
    · exact h p hmem
    · rcases List.mem_singleton.mp hmem with rfl
      simp [deserialize_serialize]

theorem matchUnit_mem (l : List Char) (u : String) (h : matchUnit l = some u) :
    u = "minute" ∨ u = "hour" ∨ u = "day" := by
  unfold matchUnit at h
  split at h
  · cases h; exact Or.inl rfl
  · split at h
    · cases h; exact Or.inr (Or.inl rfl)
    · split at h
      · cases h; exact Or.inr (Or.inr rfl)
      · cases h

theorem matchReminderAt_unit (l : List Char) (n : Nat) (u : String)
    (h : matchReminderAt l = some (n, u)) : u = "minute" ∨ u = "hour" ∨ u = "day" := by
  unfold matchReminderAt at h
  rw [Option.bind_eq_some] at h
  obtain ⟨r1, _, h⟩ := h
  split at h
  · cases h
  · rw [Option.map_eq_some'] at h
    obtain ⟨u2, hu2, heq⟩ := h
    cases heq
    exact matchUnit_mem _ _ hu2

theorem findReminder_unit (l : List Char) (n : Nat) (u : String)
    (h : findReminder l = some (n, u)) : u = "minute" ∨ u = "hour" ∨ u = "day" := by
  induction l with
  | nil => simp [findReminder] at h
  | cons c rest ih =>
    have hstep : findReminder (c :: rest) =
        match matchReminderAt (c :: rest) with
        | some r => some r
        | none => findReminder rest := rfl
    rw [hstep] at h
    cases hm : matchReminderAt (c :: rest) with
    | some r =>
      rw [hm] at h
      cases h
      exact matchReminderAt_unit _ _ _ hm
    | none =>
      rw [hm] at h
      exact ih h

theorem delayFor_of_unit (n : Nat) (u : String) (hu : u = "minute" ∨ u = "hour" ∨ u = "day") :
    delayFor n u = some (n * unitMs u) := by
  rcases hu with rfl | rfl | rfl
  · have h1 : jsStartsWith "minute" "minute" = true := by decide
    have hu : unitMs "minute" = 60000 := by decide
    simp only [delayFor, h1, if_true, hu]
    rw [Option.some_inj]
    omega
  · have h1 : jsStartsWith "hour" "minute" = false := by decide
    have h2 : jsStartsWith "hour" "hour" = true := by decide
    have hu : unitMs "hour" = 3600000 := by decide
    simp only [delayFor, h1, h2, Bool.false_eq_true, if_false, if_true, hu]
    rw [Option.some_inj]
    omega
  · have h1 : jsStartsWith "day" "minute" = false := by decide
    have h2 : jsStartsWith "day" "hour" = false := by decide
    have h3 : jsStartsWith "day" "day" = true := by decide
    have hu : unitMs "day" = 86400000 := by decide
    simp only [delayFor, h1, h2, h3, Bool.false_eq_true, if_false, if_true, hu]
    rw [Option.some_inj]
    omega

/-- C1: the store keeps at most one record per threadId (key-uniqueness
is preserved by every MarkPending), and after any sequence of
MarkPending commands the raw value stored under a threadId is exactly
the serialization of the record written by the last MarkPending for it —
a full overwrite with no merge and no error, also when the threadId was
already present. -/
theorem C1_markPending_lastWriterWins (init : Store) (cmds : List (String × TaskData))
    (id : String) (T : TaskData)
    (hnd : (keysOf init).Nodup) (hlast : lastWrite cmds id = some T) :
    (keysOf (markPendingAll init cmds)).Nodup ∧
      hGet (markPendingAll init cmds) id = some (serializeTask T) :=
  ⟨nodup_keys_markPendingAll cmds init hnd, hGet_markPendingAll_last cmds init id T hlast⟩

theorem C1_witness :
    (keysOf (markPendingAll []
      [("1.1", (⟨"pending", "C1", "old text", "@pending old"⟩ : TaskData)),
       ("1.1", (⟨"pending", "C1", "new text", "@pending new"⟩ : TaskData))])).Nodup ∧
      hGet (markPendingAll []
        [("1.1", (⟨"pending", "C1", "old text", "@pending old"⟩ : TaskData)),
         ("1.1", (⟨"pending", "C1", "new text", "@pending new"⟩ : TaskData))]) "1.1" =
        some (serializeTask (⟨"pending", "C1", "new text", "@pending new"⟩ : TaskData)) :=
  C1_markPending_lastWriterWins [] _ "1.1" _ (by decide) (by decide)

/-- C2: when the timer fires, the scheduler re-reads the store; if
MarkCompleted removed the task before the delay elapsed the re-check
finds nothing and no notification is sent, and if a record is present at
fire time exactly one notification goes to the recipient, containing the
task's text and the thread link. -/
theorem C2_reminder_validity (store : Store) (domain userId tid raw : String) (T : TaskData)
    (hraw : hGet store tid = some raw) (hT : deserializeTask raw = some T) :
    reminderFire (removePendingTask tid store) domain userId tid = [] ∧
      reminderFire store domain userId tid =
        [(userId,
          "\n🔔 Reminder: The task in this thread is still pending!\n- Task: " ++ T.text ++
            "\n- " ++ listThreadLink domain T.channel tid ++ "\n        ")] := by
  constructor
  · unfold reminderFire removePendingTask
    rw [hGet_hDel_self]
  · simp only [reminderFire, hraw, hT]
    rfl

theorem C2_witness :
    reminderFire
        (removePendingTask "1.1"
          (addPendingTask "1.1" (⟨"pending", "C1", "Fix bug", "@pending"⟩ : TaskData) []))
        "myteam" "U1" "1.1" = [] ∧
      reminderFire (addPendingTask "1.1" (⟨"pending", "C1", "Fix bug", "@pending"⟩ : TaskData) [])
          "myteam" "U1" "1.1" =
        [("U1",
          "\n🔔 Reminder: The task in this thread is still pending!\n- Task: " ++ "Fix bug" ++
            "\n- " ++ listThreadLink "myteam" "C1" "1.1" ++ "\n        ")] :=
  C2_reminder_validity _ "myteam" "U1" "1.1"
    (serializeTask (⟨"pending", "C1", "Fix bug", "@pending"⟩ : TaskData))
    (⟨"pending", "C1", "Fix bug", "@pending"⟩ : TaskData) (by decide) (by decide)

/-- C3: MarkCompleted on a thread with no task record succeeds, leaves
the store unchanged (the HDEL is a no-op) and still posts the confirming
in-thread reply. -/
theorem C3_completed_idempotent (store : Store) (thread_ts : Option String) (ts : String)
    (habs : hGet store (jsOr thread_ts ts) = none) (hne : jsOr thread_ts ts ≠ "") :
    handleCompletedMessage store thread_ts ts =
      (store, [⟨"Thread marked as completed!", some (jsOr thread_ts ts)⟩]) := by
  simp only [handleCompletedMessage]
  rw [if_neg hne]
  simp only [removePendingTask]
  rw [hDel_of_absent store _ habs]

theorem C3_witness :
    handleCompletedMessage [] none "1.1" =
      ([], [⟨"Thread marked as completed!", some "1.1"⟩]) :=
  C3_completed_idempotent [] none "1.1" (by decide) (by decide)

/-- C4: on a store whose raw values all deserialize, put followed by
listAll yields a record equal to the one written under its key, and
delete followed by listAll yields no record for the key (round-trip
through serialization). -/
theorem C4_store_roundtrip (store : Store) (id : String) (T : TaskData)
    (h : wellFormed store = true) :
    (∃ l, getPendingTasks (addPendingTask id T store) = some l ∧
        l.find? (fun q => q.1 == id) = some (id, T)) ∧
      (∃ l, getPendingTasks (removePendingTask id store) = some l ∧
        l.find? (fun q => q.1 == id) = none) := by
  constructor
  · obtain ⟨l, hl, hf⟩ :=
      getPendingTasks_of_wellFormed _ (wellFormed_hSet_serialized store id T h)
    exact ⟨l, hl, find?_forall₂_some _ _ hf id (serializeTask T) T
      (find?_hSet_self store id (serializeTask T)) (deserialize_serialize T)⟩
  · obtain ⟨l, hl, hf⟩ := getPendingTasks_of_wellFormed _ (wellFormed_hDel store id h)
    exact ⟨l, hl, find?_forall₂_none _ _ hf id (find?_hDel_self store id)⟩

theorem C4_witness :
    (∃ l, getPendingTasks
        (addPendingTask "1.1" (⟨"pending", "C1", "Fix bug", "@pending"⟩ : TaskData) []) = some l ∧
        l.find? (fun q => q.1 == "1.1") =
          some ("1.1", (⟨"pending", "C1", "Fix bug", "@pending"⟩ : TaskData))) ∧
      (∃ l, getPendingTasks (removePendingTask "1.1" []) = some l ∧
        l.find? (fun q => q.1 == "1.1") = none) :=
  C4_store_roundtrip [] "1.1" _ (by decide)

/-- C5: a transport failure inside one DM send is caught and turned into
a log entry naming the failing recipient, never propagates, and the
topic-change broadcast still attempts delivery to every recipient in
order. -/
theorem C5_dm_failure_isolation (fails : String → Bool) (userIds : List String) (text : String) :
    (∀ u, sendDM fails u text =
        if fails u then [DMEvent.errorLogged u] else [DMEvent.sent u text]) ∧
      broadcastDMs fails userIds text =
        userIds.map (fun u => if fails u then DMEvent.errorLogged u else DMEvent.sent u text) :=
  ⟨fun u => sendDM_eq fails u text, broadcastDMs_eq_map fails userIds text⟩

/-- C6: a topic change with no mentioned user or no pending task sends
no DM; otherwise one DM is attempted per mention occurrence in order
(duplicates included), each carrying the fixed instructional preamble
plus the full pending-task digest. -/
theorem C6_topic_change_broadcast (fails : String → Bool) (store : Store) (domain topic : String)
    (tasks : List (String × TaskData)) (h : getPendingTasks store = some tasks) :
    ((extractUserIdsFromTopic topic = [] ∨ tasks = []) →
        handleTopicChange fails store domain topic = []) ∧
      (tasks ≠ [] →
        handleTopicChange fails store domain topic =
          (extractUserIdsFromTopic topic).map (fun u =>
            if fails u then DMEvent.errorLogged u
            else DMEvent.sent u (instructionsText domain tasks))) ∧
      instructionsText domain tasks =
        instructionsPreamble ++ ("Here are the pending tasks:\n" ++ topicDigest domain tasks) ++
          "\n      " := by
  refine ⟨?_, ?_, rfl⟩
  · intro hz
    simp only [handleTopicChange, h]
    rcases hz with hz | hz
    · rw [hz]
      simp
    · rw [hz]
      simp
  · intro hnz
    simp only [handleTopicChange, h]
    by_cases huser : extractUserIdsFromTopic topic = []
    · rw [huser]
      simp
    · rw [if_neg (by simp [List.length_eq_zero, hnz, huser])]
      exact broadcastDMs_eq_map fails _ _

theorem C6_witness :
    handleTopicChange (fun _ => false)
        (addPendingTask "1.1" (⟨"pending", "C1", "Fix bug", "@pending"⟩ : TaskData) [])
        "myteam" "<@U1> <@U1>" =
      (extractUserIdsFromTopic "<@U1> <@U1>").map (fun u =>
        if (fun _ : String => false) u then DMEvent.errorLogged u
        else DMEvent.sent u (instructionsText "myteam"
          [("1.1", (⟨"pending", "C1", "Fix bug", "@pending"⟩ : TaskData))])) :=
  ((C6_topic_change_broadcast _ _ _ _ _ (by decide)).2.1 (by decide))

/-- C7 counterexample: for the message "remind me in 0 minutes" the code
posts no confirmation and schedules nothing (the claim says amount 0 is
legal and yields a scheduled reminder with a 0 ms delay): the parsed
delay 0 fails the `if (delayInMs)` truthiness guard. -/
theorem C7_counterexample :
    handleReminderMessage "remind me in 0 minutes" (some "1.2") "1.2" "U1" = ([], []) ∧
      (handleReminderMessage "remind me in 0 minutes" (some "1.2") "1.2" "U1").2 ≠
        [⟨"U1", "1.2", 0⟩] := by
  constructor
  · decide
  · decide

theorem delayFor_zero (u : String) (d : Nat) (h : delayFor 0 u = some d) : d = 0 := by
  unfold delayFor at h
  split at h
  · rw [Option.some_inj] at h
    omega
  · split at h
    · rw [Option.some_inj] at h
      omega
    · split at h
      · rw [Option.some_inj] at h
        omega
      · cases h

/-- C7 amended: a reminder phrase whose parsed amount is 0 is silently
ignored — the computed 0 ms delay is falsy under the `if (delayInMs)`
guard, so no confirmation is posted and no reminder is scheduled
(unlike every amount ≥ 1). -/
theorem C7_amended (text : String) (thread_ts : Option String) (ts user u : String)
    (hmatch : findReminder text.data = some (0, u)) (hthread : jsOr thread_ts ts ≠ "") :
    handleReminderMessage text thread_ts ts user = ([], []) := by
  unfold handleReminderMessage
  by_cases hs : startsWithLC text "remind me in" = true
  · rw [if_pos hs]
    simp only [hmatch]
    rw [if_neg hthread]
    cases hdf : delayFor 0 u with
    | none => rfl
    | some d =>
      have hd := delayFor_zero u d hdf
      subst hd
      simp
  · rw [if_neg hs]

theorem C7_witness :
    handleReminderMessage "remind me in 0 minutes" (some "9.9") "9.9" "U2" = ([], []) :=
  C7_amended "remind me in 0 minutes" (some "9.9") "9.9" "U2" "minute" (by decide) (by decide)

/-- C8 counterexample: for the spec's two tasks the @list_pending reply
is the exact bulleted text `c8ReplyText`, which contains no 1-based
numbering ("1. " and "2. " occur nowhere in it), contradicting the
claimed numbered lines. -/
theorem C8_counterexample :
    listPendingReply "myteam" c8Store "9.9" = [⟨c8ReplyText, some "9.9"⟩] ∧
      containsSub "1. ".data c8ReplyText.data = false ∧
      containsSub "2. ".data c8ReplyText.data = false := by
  refine ⟨by decide, by decide, by decide⟩

/-- C8 amended: the reply holds one bulleted line per task (link first,
then the task's text), each link of the exact form
https://{domain}.slack.com/archives/{channel}/p{anchor-without-dot}
(so containing /archives/C1/p11 resp. /archives/C1/p22), and with zero
tasks the reply is the explicit no-pending-tasks message. -/
theorem C8_list_format :
    listPendingReply "myteam" c8Store "9.9" = [⟨c8ReplyText, some "9.9"⟩] ∧
      containsSub "/archives/C1/p11".data c8ReplyText.data = true ∧
      containsSub "/archives/C1/p22".data c8ReplyText.data = true ∧
      containsSub "Fix bug".data c8ReplyText.data = true ∧
      containsSub "Write docs".data c8ReplyText.data = true ∧
      listPendingReply "myteam" [] "9.9" = [⟨"No pending tasks found.", some "9.9"⟩] := by
  refine ⟨by decide, by decide, by decide, by decide, by decide, by decide⟩

/-- C9: every parsed reminder command converts its amount to
milliseconds by the unit table (minute 60000, hour 3600000, day
86400000); in particular "remind me in 2 hours" schedules a 7200000 ms
reminder and "remind me in 1 day" an 86400000 ms one. -/
theorem C9_unit_conversion :
    (∀ (l : List Char) (n : Nat) (u : String), findReminder l = some (n, u) →
        delayFor n u = some (n * unitMs u)) ∧
      (handleReminderMessage "remind me in 2 hours" (some "1.2") "1.2" "U1").2 =
        [⟨"U1", "1.2", 7200000⟩] ∧
      (handleReminderMessage "remind me in 1 day" (some "1.2") "1.2" "U1").2 =
        [⟨"U1", "1.2", 86400000⟩] := by
  refine ⟨?_, by decide, by decide⟩
  intro l n u hf
  exact delayFor_of_unit n u (findReminder_unit l n u hf)

theorem C9_witness : delayFor 2 "hour" = some (2 * unitMs "hour") :=
  C9_unit_conversion.1 "remind me in 2 hours".data 2 "hour" (by decide)

/-- C10: one malformed stored value makes listAll fail as a whole
(`getPendingTasks` returns none instead of skipping the record), so a
@list_pending reply or a topic-change broadcast in that state produces
no output at all. -/
theorem C10_malformed_fails_whole (store : Store) (domain anchor topic : String)
    (fails : String → Bool) (p : String × String) (hp : p ∈ store)
    (hbad : deserializeTask p.2 = none) :
    getPendingTasks store = none ∧
      listPendingReply domain store anchor = [] ∧
      handleTopicChange fails store domain topic = [] := by
  have h := getPendingTasks_eq_none store p hp hbad
  exact ⟨h, by simp [listPendingReply, h], by simp [handleTopicChange, h]⟩

theorem C10_witness :
    getPendingTasks [("1.1", "notjson")] = none ∧
      listPendingReply "myteam" [("1.1", "notjson")] "9.9" = [] ∧
      handleTopicChange (fun _ => false) [("1.1", "notjson")] "myteam" "<@U1>" = [] :=
  C10_malformed_fails_whole [("1.1", "notjson")] "myteam" "9.9" "<@U1>" (fun _ => false)
    ("1.1", "notjson") (by decide) (by decide)

end Slackdog
